import Mathlib

/-!
Verification of the filter-and-aggregate pipeline of the Amazon-Books EDA
dashboard (`streamlit_app/app.py`).

The dataset is a pandas DataFrame; we embed it as a list of rows together
with the list of column names (column presence, e.g. of `Price_outlier`,
is a dataset-level fact in pandas).  Missing values (pandas `NaN`) in the
`Type`, `Main Genre`, `Author` and `Rating` columns are embedded as
`Option` values: pandas `Series.isin` is false on `NaN`, and both `NaN >= lo`
and `NaN <= hi` are false, which the `Option` embeddings below reproduce.
Numeric values are embedded as rationals.
-/

namespace BooksApp

/-- One row of the cleaned books dataset (`cleaned_books.csv`).
`type`, `mainGenre`, `author` and `rating` may be missing (pandas `NaN`);
`price` and `peopleRated` are taken to be always present, as in the data
model of the dashboard.  `priceOutlier` is the value of the optional
`Price_outlier` column; it is meaningful only when that column is present
in the dataset. -/
structure Row where
  type : Option String
  mainGenre : Option String
  author : Option String
  rating : Option ℚ
  peopleRated : ℚ
  price : ℚ
  priceOutlier : Bool
deriving DecidableEq

/-- The in-memory table: the column names of the DataFrame together with
its rows.  `cols` records column presence (`"Price_outlier" ∈ cols` iff the
optional outlier column exists). -/
structure Dataset where
  cols : List String
  rows : List Row
deriving DecidableEq

/-- The sidebar filter parameters: `selected_types` and `selected_genres`
(multiselect), the closed rating interval `[ratingLo, ratingHi]` (slider),
and the `exclude_outliers` checkbox. -/
structure Params where
  selected_types : List String
  selected_genres : List String
  ratingLo : ℚ
  ratingHi : ℚ
  exclude_outliers : Bool
deriving DecidableEq

/-- `Series.isin(sel)` on a string column: a missing value is in no
selection set. -/
def isinStr (x : Option String) (sel : List String) : Bool :=
  match x with
  | none => false
  | some s => sel.contains s

/-- `Series >= lo` on a numeric column: false on a missing value. -/
def ratingGe (x : Option ℚ) (lo : ℚ) : Bool :=
  match x with
  | none => false
  | some v => decide (lo ≤ v)

/-- `Series <= hi` on a numeric column: false on a missing value. -/
def ratingLe (x : Option ℚ) (hi : ℚ) : Bool :=
  match x with
  | none => false
  | some v => decide (v ≤ hi)

/-- The conjunction of the four always-active filter predicates
(`app.py` lines 71-76). -/
def basePred (p : Params) (r : Row) : Bool :=
  isinStr r.type p.selected_types &&
  isinStr r.mainGenre p.selected_genres &&
  ratingGe r.rating p.ratingLo &&
  ratingLe r.rating p.ratingHi

/-- The filter pipeline (`app.py` lines 69-79): first the conjunction of
the type / genre / rating predicates, then, when `exclude_outliers` is set
and the `Price_outlier` column exists, the rows flagged as outliers are
dropped (`filtered_df[~filtered_df["Price_outlier"]]`). -/
def filtered_df (d : Dataset) (p : Params) : Dataset :=
  let rows1 := d.rows.filter (fun r => basePred p r)
  if p.exclude_outliers && d.cols.contains "Price_outlier" then
    { cols := d.cols, rows := rows1.filter (fun r => !r.priceOutlier) }
  else
    { cols := d.cols, rows := rows1 }

/-- The single row predicate stated by the spec: `Type ∈ selected_types`
AND `Main Genre ∈ selected_genres` AND `Rating ≥ lo` AND `Rating ≤ hi`,
AND (when `exclude_outliers` is true and the outlier column exists)
`Price_outlier = false`.  This definition transcribes the spec's words and
is compared with `filtered_df`, which transcribes the code. -/
def specPred (cols : List String) (p : Params) (r : Row) : Bool :=
  isinStr r.type p.selected_types &&
  isinStr r.mainGenre p.selected_genres &&
  ratingGe r.rating p.ratingLo &&
  ratingLe r.rating p.ratingHi &&
  (if p.exclude_outliers && cols.contains "Price_outlier" then !r.priceOutlier else true)

theorem filtered_df_cols (d : Dataset) (p : Params) : (filtered_df d p).cols = d.cols := by
  unfold filtered_df
  split <;> rfl

theorem filtered_df_rows (d : Dataset) (p : Params) :
    (filtered_df d p).rows = d.rows.filter (fun r => specPred d.cols p r) := by
  unfold filtered_df specPred
  by_cases h : (p.exclude_outliers && d.cols.contains "Price_outlier") = true
  · simp only [h, if_true, List.filter_filter]
    apply List.filter_congr
    intro r _
    simp [basePred, Bool.and_assoc, Bool.and_comm, Bool.and_left_comm]
  · simp only [Bool.not_eq_true] at h
    simp only [h, if_false, Bool.and_true, Bool.and_true]
    apply List.filter_congr
    intro r _
    simp [basePred, Bool.and_assoc, Bool.and_comm, Bool.and_left_comm]

/-- **C1.** The filtered view is exactly the list of dataset rows
satisfying the spec's conjunction of predicates (type membership, genre
membership, inclusive rating bounds, and — only when `exclude_outliers`
is set and the `Price_outlier` column exists — a false outlier flag),
kept in the dataset's original relative order: it is literally
`List.filter` of that predicate. -/
theorem filter_pipeline_is_spec_filter (d : Dataset) (p : Params) :
    (filtered_df d p).rows = d.rows.filter (fun r => specPred d.cols p r) :=
  filtered_df_rows d p

/-! ### Aggregation functions

The aggregations of the dashboard, embedded from `app.py`:
`filtered_df["Price"].describe()` (overview tab),
`groupby(col)[val].mean().sort_values(val, ascending=False)` (price and
authors tabs), `value_counts().head(10)` (authors tab) and
`filtered_df[existing_numeric].corr()` (correlation tab). -/

/-- Arithmetic mean of a list of rationals (`Series.mean` on a list of
present values). -/
def qmean (xs : List ℚ) : ℚ :=
  xs.sum / (xs.length : ℚ)

/-- `Series.mean` with pandas `NaN` semantics: missing values are
skipped; the mean of no present values is `NaN` (embedded as `none`). -/
def optMean (xs : List ℚ) : Option ℚ :=
  if xs.isEmpty then none else some (qmean xs)

/-- First-occurrence deduplication: the distinct elements of a list in
the order each one is first encountered, skipping the ones already in
`seen`.  This is the key order of the pandas hash table underlying
`groupby` and `value_counts`. -/
def firstDedup (seen : List String) : List String → List String
  | [] => []
  | a :: as =>
    if seen.contains a then firstDedup seen as
    else a :: firstDedup (a :: seen) as

/-- Code-point lexicographic comparison on `Char` lists. -/
def charsLe : List Char → List Char → Bool
  | [], _ => true
  | _ :: _, [] => false
  | a :: as, b :: bs => if a = b then charsLe as bs else decide (a < b)

/-- Lexicographic string comparison, the ascending key order used by
`groupby(sort=True)`. -/
def strLe (s t : String) : Bool :=
  charsLe s.data t.data

/-- The descending order used by `sort_values(val, ascending=False)` on a
column that may hold `NaN` (embedded `none`): larger means first, `NaN`
last (`na_position` defaults to `"last"`). -/
def optLeDesc (a b : Option ℚ) : Bool :=
  match a, b with
  | some x, some y => decide (y ≤ x)
  | some _, none => true
  | none, some _ => false
  | none, none => true

/-- The rows of `view` whose grouping column equals the label `g`
(exact string equality; pandas drops `NaN` keys). -/
def groupRows (key : Row → Option String) (view : List Row) (g : String) : List Row :=
  view.filter (fun r => key r == some g)

/-- The mean of the value column over the group labelled `g`. -/
def groupMean (key : Row → Option String) (val : Row → Option ℚ) (view : List Row)
    (g : String) : Option ℚ :=
  optMean ((groupRows key view g).filterMap val)

/-- `view.groupby(key, as_index=False)[val].mean().sort_values(val,
ascending=False)` (`app.py` lines 126-130 and 221-225): the distinct
non-missing keys (pandas sorts them ascending), each mapped to the mean
of the present values of its group, then sorted by mean, descending. -/
def mean_by_group (key : Row → Option String) (val : Row → Option ℚ)
    (view : List Row) : List (String × Option ℚ) :=
  (((firstDedup [] (view.filterMap key)).mergeSort (fun a b => strLe a b)).map
    (fun g => (g, groupMean key val view g))).mergeSort
    (fun a b => optLeDesc a.2 b.2)

/-- `Series.value_counts()` over the non-missing values of a column:
each distinct value with its number of occurrences, sorted by count,
descending; the underlying hash table yields the values in
first-encountered order, so ties keep that order. -/
def value_counts (vals : List String) : List (String × Nat) :=
  ((firstDedup [] vals).map (fun v => (v, vals.count v))).mergeSort
    (fun a b => decide (b.2 ≤ a.2))

/-- `view[col].value_counts().head(n)` (`app.py` lines 195-199). -/
def top_value_counts (key : Row → Option String) (n : Nat) (view : List Row) :
    List (String × Nat) :=
  (value_counts (view.filterMap key)).take n

/-- The summary statistics of `Series.describe()` that are rational
valued: count, mean, sample variance (the square of the reported std),
min and max.  The quartiles (linear interpolation) are omitted; they play
no role in any claim.  On an empty series pandas reports count `0` and
`NaN` for the rest, and raises no error. -/
structure DescribeStats where
  count : Nat
  mean : Option ℚ
  varSample : Option ℚ
  min : Option ℚ
  max : Option ℚ
deriving DecidableEq

/-- `filtered_df["Price"].describe()` (`app.py` line 107), restricted to
its rational-valued statistics. -/
def describeQ (xs : List ℚ) : DescribeStats where
  count := xs.length
  mean := optMean xs
  varSample :=
    if xs.length ≤ 1 then none
    else some ((xs.map (fun x => (x - qmean xs) ^ 2)).sum / ((xs.length : ℚ) - 1))
  min := xs.min?
  max := xs.max?

/-! ### Presentation-layer signals

Each display section either shows a computed table or reports
"No data available with the current filters." (`st.info`).  The
correlation tab instead distinguishes "Not enough numeric columns to
compute correlations."; it has no empty-data branch at all, so
`CorrDisplay.noData` below is a signal the code can never emit. -/

/-- What a display section hands to the presentation layer. -/
inductive AggDisplay (α : Type) where
  | noData
  | shown (a : α)
deriving DecidableEq

/-- Overview tab, `st.write(filtered_df["Price"].describe())`
(`app.py` lines 106-107): always shows the statistics, with no
empty-data guard. -/
def overview_price_stats (d : Dataset) (p : Params) : AggDisplay DescribeStats :=
  .shown (describeQ ((filtered_df d p).rows.map (fun r => r.price)))

/-- Price tab (`app.py` lines 125-141): average price by type, guarded
by `if not filtered_df.empty`. -/
def avg_price_type (d : Dataset) (p : Params) :
    AggDisplay (List (String × Option ℚ)) :=
  let v := filtered_df d p
  if v.rows.isEmpty then .noData
  else .shown (mean_by_group (fun r => r.type) (fun r => some r.price) v.rows)

/-- Authors tab (`app.py` lines 194-215): top-10 author counts, guarded
by `if not filtered_df.empty`. -/
def author_counts (d : Dataset) (p : Params) : AggDisplay (List (String × Nat)) :=
  let v := filtered_df d p
  if v.rows.isEmpty then .noData
  else .shown (top_value_counts (fun r => r.author) 10 v.rows)

/-- Authors tab (`app.py` lines 220-242): average rating by main genre,
guarded by `if not filtered_df.empty`. -/
def avg_rating_genre (d : Dataset) (p : Params) :
    AggDisplay (List (String × Option ℚ)) :=
  let v := filtered_df d p
  if v.rows.isEmpty then .noData
  else .shown (mean_by_group (fun r => r.mainGenre) (fun r => r.rating) v.rows)

/-! ### Correlation matrix

pandas `DataFrame.corr()` computes, for each pair of columns, the Pearson
coefficient over the rows where both values are present:
`Σ(x-mx)(y-my) / sqrt(Σ(x-mx)² · Σ(y-my)²)`, and `NaN` when a divisor is
zero.  The square root is irrational, so an entry is embedded as the
triple `(num, dxx, dyy)` standing for the value `num / sqrt(dxx · dyy)`
(with `dxx, dyy > 0`), and `NaN` as `none`. -/

/-- A non-`NaN` Pearson entry: the value `num / sqrt (dxx * dyy)`. -/
structure PearsonEntry where
  num : ℚ
  dxx : ℚ
  dyy : ℚ
deriving DecidableEq

/-- The represented value equals `1.0`: the numerator is nonnegative and
its square equals the product under the root. -/
def PearsonEntry.IsOne (e : PearsonEntry) : Prop :=
  0 ≤ e.num ∧ e.num ^ 2 = e.dxx * e.dyy

/-- Two entries represent the same real value (denominators assumed
positive): same sign and equal squares after clearing the roots. -/
def entryEquiv (a b : PearsonEntry) : Prop :=
  (0 ≤ a.num ↔ 0 ≤ b.num) ∧ a.num ^ 2 * (b.dxx * b.dyy) = b.num ^ 2 * (a.dxx * a.dyy)

/-- `entryEquiv` lifted to `NaN`-aware entries. -/
def optEntryEquiv : Option PearsonEntry → Option PearsonEntry → Prop
  | none, none => True
  | some a, some b => entryEquiv a b
  | _, _ => False

/-- The rows where both columns are present (pandas pairwise-complete
masking in `nancorr`). -/
def pairedVals (xs ys : List (Option ℚ)) : List (ℚ × ℚ) :=
  (xs.zip ys).filterMap (fun q =>
    match q with
    | (some x, some y) => some (x, y)
    | _ => none)

/-- `Σ(x-mx)²` over the paired rows, `mx` being the mean of the first
components. -/
def sxxOf (ps : List (ℚ × ℚ)) : ℚ :=
  (ps.map (fun q => (q.1 - qmean (ps.map Prod.fst)) ^ 2)).sum

/-- `Σ(y-my)²` over the paired rows, `my` being the mean of the second
components. -/
def syyOf (ps : List (ℚ × ℚ)) : ℚ :=
  (ps.map (fun q => (q.2 - qmean (ps.map Prod.snd)) ^ 2)).sum

/-- `Σ(x-mx)(y-my)` over the paired rows. -/
def sxyOf (ps : List (ℚ × ℚ)) : ℚ :=
  (ps.map (fun q =>
    (q.1 - qmean (ps.map Prod.fst)) * (q.2 - qmean (ps.map Prod.snd)))).sum

/-- One entry of `DataFrame.corr()`: `NaN` when either centered sum of
squares over the paired rows is zero (pandas `nancorr` checks its divisor
for zero), else the value
`Σ(x-mx)(y-my) / sqrt(Σ(x-mx)² · Σ(y-my)²)`. -/
def corrEntry (xs ys : List (Option ℚ)) : Option PearsonEntry :=
  if sxxOf (pairedVals xs ys) = 0 ∨ syyOf (pairedVals xs ys) = 0 then none
  else some ⟨sxyOf (pairedVals xs ys), sxxOf (pairedVals xs ys), syyOf (pairedVals xs ys)⟩

/-- The values of a numeric column of the filtered view, by column name
(`Rating` may hold missing values; the other two are always present). -/
def colVals (rows : List Row) (c : String) : List (Option ℚ) :=
  rows.map (fun r =>
    if c = "Price" then some r.price
    else if c = "Rating" then r.rating
    else if c = "No. of People rated" then some r.peopleRated
    else none)

/-- `numeric_cols = ["Price", "Rating", "No. of People rated"]`
(`app.py` line 250). -/
def numeric_cols : List String :=
  ["Price", "Rating", "No. of People rated"]

/-- `[c for c in numeric_cols if c in filtered_df.columns]`
(`app.py` line 251). -/
def existing_numeric (cols : List String) : List String :=
  numeric_cols.filter (fun c => cols.contains c)

/-- `filtered_df[existing_numeric].corr()` (`app.py` line 254): rows and
columns in the order of the requested column list. -/
def corrMatrix (rows : List Row) (cs : List String) :
    List (List (Option PearsonEntry)) :=
  cs.map (fun c1 => cs.map (fun c2 => corrEntry (colVals rows c1) (colVals rows c2)))

/-- What the correlation tab hands to the presentation layer.  The code
only ever produces `heatmap` or `insufficientColumns`; `noData` is
included as the signal the other tabs use, to state that the correlation
tab never reports it. -/
inductive CorrDisplay where
  | noData
  | insufficientColumns
  | heatmap (cs : List String) (m : List (List (Option PearsonEntry)))
deriving DecidableEq

/-- The correlation tab (`app.py` lines 250-264): the heatmap over the
existing numeric columns when at least two of them exist, else the
"Not enough numeric columns" signal. -/
def corr_tab (d : Dataset) (p : Params) : CorrDisplay :=
  let v := filtered_df d p
  let ex := existing_numeric v.cols
  if 2 ≤ ex.length then .heatmap ex (corrMatrix v.rows ex)
  else .insufficientColumns

theorem mem_firstDedup {a : String} :
    ∀ (l : List String) (seen : List String),
      a ∈ firstDedup seen l ↔ (a ∈ l ∧ seen.contains a = false) := by
  intro l
  induction l with
  | nil => intro seen; simp [firstDedup]
  | cons b bs ih =>
    intro seen
    unfold firstDedup
    by_cases hb : seen.contains b = true
    · rw [if_pos hb, ih]
      constructor
      · intro ⟨h1, h2⟩
        refine ⟨List.mem_cons_of_mem b h1, h2⟩
      · intro ⟨h1, h2⟩
        rcases List.mem_cons.mp h1 with h | h
        · subst h
          rw [hb] at h2
          exact absurd h2 (by simp)
        · exact ⟨h, h2⟩
    · rw [if_neg hb, List.mem_cons, ih]
      simp only [Bool.not_eq_true] at hb
      constructor
      · intro h
        rcases h with h | ⟨h1, h2⟩
        · subst h
          exact ⟨List.mem_cons_self a bs, hb⟩
        · simp only [List.contains_cons, Bool.or_eq_false_iff] at h2
          exact ⟨List.mem_cons_of_mem b h1, h2.2⟩
      · intro ⟨h1, h2⟩
        by_cases hab : a = b
        · exact Or.inl hab
        · rcases List.mem_cons.mp h1 with h | h
          · exact absurd h hab
          · refine Or.inr ⟨h, ?_⟩
            simp only [List.contains_cons, Bool.or_eq_false_iff]
            refine ⟨by simp [hab], h2⟩

theorem nodup_firstDedup :
    ∀ (l : List String) (seen : List String), (firstDedup seen l).Nodup := by
  intro l
  induction l with
  | nil => intro seen; simp [firstDedup]
  | cons b bs ih =>
    intro seen
    unfold firstDedup
    by_cases hb : seen.contains b = true
    · rw [if_pos hb]; exact ih seen
    · rw [if_neg hb]
      refine List.Nodup.cons ?_ (ih (b :: seen))
      intro hmem
      have := (mem_firstDedup bs (b :: seen)).mp hmem
      simp [List.contains_cons] at this

theorem optLeDesc_trans :
    ∀ (a b c : Option ℚ),
      optLeDesc a b = true → optLeDesc b c = true → optLeDesc a c = true
  | some x, some y, some z, h1, h2 => by
    simp only [optLeDesc, decide_eq_true_eq] at h1 h2 ⊢
    exact le_trans h2 h1
  | some _, some _, none, _, _ => rfl
  | some _, none, none, _, _ => rfl
  | some _, none, some _, _, h2 => by simp [optLeDesc] at h2
  | none, some _, _, h1, _ => by simp [optLeDesc] at h1
  | none, none, some _, _, h2 => by simp [optLeDesc] at h2
  | none, none, none, _, _ => rfl

theorem optLeDesc_total :
    ∀ (a b : Option ℚ), (optLeDesc a b || optLeDesc b a) = true
  | some x, some y => by
    simp only [optLeDesc, Bool.or_eq_true, decide_eq_true_eq]
    exact le_total y x
  | some _, none => rfl
  | none, some _ => rfl
  | none, none => rfl

theorem map_fst_mergeSort_map_nodup {β : Type} [DecidableEq β]
    (ks : List String) (f : String → β) (hks : ks.Nodup)
    (cmp : String × β → String × β → Bool) :
    (((ks.map (fun g => (g, f g))).mergeSort cmp).map Prod.fst).Nodup := by
  have hperm := (List.mergeSort_perm (ks.map (fun g => (g, f g))) cmp).map Prod.fst
  rw [hperm.nodup_iff, List.map_map]
  have hid : (Prod.fst ∘ fun g => ((g, f g) : String × β)) = id := by
    funext g; rfl
  rw [hid, List.map_id]
  exact hks

/-- **C3.** `mean_by_group` contract: a pair `(g, m)` is in the output
iff `g` is a group label occurring in the view (so empty groups are never
materialized) and `m` is the mean of the value column over exactly the
rows of that group (membership by exact string equality); each label
appears once; and the output is ordered by descending mean (missing means
last). -/
theorem mean_by_group_contract (key : Row → Option String) (val : Row → Option ℚ)
    (view : List Row) :
    (∀ g m, (g, m) ∈ mean_by_group key val view ↔
      ((∃ r ∈ view, key r = some g) ∧ m = groupMean key val view g)) ∧
    ((mean_by_group key val view).map Prod.fst).Nodup ∧
    (mean_by_group key val view).Pairwise (fun a b => optLeDesc a.2 b.2 = true) := by
  unfold mean_by_group
  refine ⟨?_, ?_, ?_⟩
  · intro g m
    rw [List.mem_mergeSort, List.mem_map]
    constructor
    · intro ⟨g', hg', he⟩
      obtain ⟨he1, he2⟩ := Prod.mk.injEq .. ▸ he
      subst he1
      rw [List.mem_mergeSort, mem_firstDedup, List.mem_filterMap] at hg'
      exact ⟨hg'.1, he2.symm⟩
    · intro ⟨⟨r, hr, hk⟩, hm⟩
      refine ⟨g, ?_, by rw [hm]⟩
      rw [List.mem_mergeSort, mem_firstDedup, List.mem_filterMap]
      exact ⟨⟨r, hr, hk⟩, rfl⟩
  · exact map_fst_mergeSort_map_nodup _ _
      (((List.mergeSort_perm _ _).nodup_iff).mpr (nodup_firstDedup _ _)) _
  · exact List.sorted_mergeSort
      (fun a b c h1 h2 => optLeDesc_trans a.2 b.2 c.2 h1 h2)
      (fun a b => optLeDesc_total a.2 b.2)
      _

theorem pair_sublist_asymm {α : Type} {a b : α} :
    ∀ {l : List α}, l.Nodup → List.Sublist [a, b] l → List.Sublist [b, a] l → False := by
  intro l
  induction l with
  | nil => intro _ h _; simp at h
  | cons c t ih =>
    intro hnd h1 h2
    have hct : c ∉ t := (List.nodup_cons.mp hnd).1
    cases h1 with
    | cons _ h1' =>
      cases h2 with
      | cons _ h2' => exact ih (List.nodup_cons.mp hnd).2 h1' h2'
      | cons₂ _ h2' =>
        exact hct (h1'.subset (by simp))
    | cons₂ _ h1' =>
      cases h2 with
      | cons _ h2' =>
        exact hct (h2'.subset (by simp))
      | cons₂ _ h2' =>
        exact hct (h1'.subset (by simp))

theorem pair_sublist_of_mem {α : Type} {a b : α} :
    ∀ {l : List α}, a ∈ l → b ∈ l → a ≠ b →
      List.Sublist [a, b] l ∨ List.Sublist [b, a] l := by
  intro l
  induction l with
  | nil => intro h; simp at h
  | cons c t ih =>
    intro ha hb hne
    rcases List.mem_cons.mp ha with h1 | h1
    · subst h1
      have hbt : b ∈ t := by
        rcases List.mem_cons.mp hb with h2 | h2
        · exact absurd h2.symm hne
        · exact h2
      exact Or.inl ((List.singleton_sublist.mpr hbt).cons₂ a)
    · rcases List.mem_cons.mp hb with h2 | h2
      · subst h2
        exact Or.inr ((List.singleton_sublist.mpr h1).cons₂ b)
      · rcases ih h1 h2 hne with h | h
        · exact Or.inl (h.cons c)
        · exact Or.inr (h.cons c)

theorem firstDedup_pair_indexOf {x y : String} :
    ∀ (l seen : List String), List.Sublist [x, y] (firstDedup seen l) →
      l.indexOf x < l.indexOf y := by
  intro l
  induction l with
  | nil => intro seen h; simp [firstDedup] at h
  | cons c t ih =>
    intro seen h
    unfold firstDedup at h
    by_cases hc : seen.contains c = true
    · rw [if_pos hc] at h
      have hxm : x ∈ firstDedup seen t := h.subset (by simp)
      have hym : y ∈ firstDedup seen t := h.subset (by simp)
      have hx := (mem_firstDedup t seen).mp hxm
      have hy := (mem_firstDedup t seen).mp hym
      have hxc : c ≠ x := by
        intro he; rw [he] at hc; rw [hx.2] at hc; exact Bool.noConfusion hc
      have hyc : c ≠ y := by
        intro he; rw [he] at hc; rw [hy.2] at hc; exact Bool.noConfusion hc
      rw [List.indexOf_cons_ne t hxc, List.indexOf_cons_ne t hyc]
      exact Nat.succ_lt_succ (ih seen h)
    · rw [if_neg hc] at h
      cases h with
      | cons _ h' =>
        have hxm : x ∈ firstDedup (c :: seen) t := h'.subset (by simp)
        have hym : y ∈ firstDedup (c :: seen) t := h'.subset (by simp)
        have hx := (mem_firstDedup t (c :: seen)).mp hxm
        have hy := (mem_firstDedup t (c :: seen)).mp hym
        have hxc : c ≠ x := by
          intro he
          have := hx.2
          rw [← he] at this
          simp [List.contains_cons] at this
        have hyc : c ≠ y := by
          intro he
          have := hy.2
          rw [← he] at this
          simp [List.contains_cons] at this
        rw [List.indexOf_cons_ne t hxc, List.indexOf_cons_ne t hyc]
        exact Nat.succ_lt_succ (ih (c :: seen) h')
      | cons₂ _ h' =>
        have hym : y ∈ firstDedup (x :: seen) t := h'.subset (by simp)
        have hy := (mem_firstDedup t (x :: seen)).mp hym
        have hyc : x ≠ y := by
          intro he
          have := hy.2
          rw [← he] at this
          simp [List.contains_cons] at this
        rw [List.indexOf_cons_self, List.indexOf_cons_ne t hyc]
        exact Nat.succ_pos _

/-- **C4.** `top_value_counts("Author", 10)` contract: at most 10
entries, counts sorted non-increasing, and two entries with equal counts
appear in the order in which their values are first encountered in the
(non-missing) author column of the filtered view. -/
theorem top_authors_contract (view : List Row) :
    (top_value_counts (fun r => r.author) 10 view).length ≤ 10 ∧
    (top_value_counts (fun r => r.author) 10 view).Pairwise (fun a b => b.2 ≤ a.2) ∧
    (∀ a b, List.Sublist [a, b] (top_value_counts (fun r => r.author) 10 view) → a.2 = b.2 →
      (view.filterMap (fun r => r.author)).indexOf a.1 <
        (view.filterMap (fun r => r.author)).indexOf b.1) := by
  have cmp_trans : ∀ (a b c : String × Nat),
      decide (b.2 ≤ a.2) = true → decide (c.2 ≤ b.2) = true →
      decide (c.2 ≤ a.2) = true := by
    intro a b c h1 h2
    simp only [decide_eq_true_eq] at *
    omega
  have cmp_total : ∀ (a b : String × Nat),
      (decide (b.2 ≤ a.2) || decide (a.2 ≤ b.2)) = true := by
    intro a b
    simp only [Bool.or_eq_true, decide_eq_true_eq]
    omega
  refine ⟨List.length_take_le 10 _, ?_, ?_⟩
  · have hs :
        ((((firstDedup [] (view.filterMap (fun r => r.author))).map
          (fun v => (v, (view.filterMap (fun r => r.author)).count v))).mergeSort
            (fun a b => decide (b.2 ≤ a.2))).Pairwise
          (fun a b => decide (b.2 ≤ a.2) = true)) := by
      exact List.sorted_mergeSort cmp_trans cmp_total _
    have hsub : List.Sublist (top_value_counts (fun r => r.author) 10 view)
        (value_counts (view.filterMap (fun r => r.author))) :=
      List.take_sublist 10 _
    exact (hs.sublist hsub).imp (fun h => by simpa using h)
  · intro a b hab hcnt
    have hsub : List.Sublist (top_value_counts (fun r => r.author) 10 view)
        (value_counts (view.filterMap (fun r => r.author))) :=
      List.take_sublist 10 _
    have habs : List.Sublist [a, b] (value_counts (view.filterMap (fun r => r.author))) :=
      hab.trans hsub
    have hperm := List.mergeSort_perm
      ((firstDedup [] (view.filterMap (fun r => r.author))).map
        (fun v => (v, (view.filterMap (fun r => r.author)).count v)))
      (fun a b => decide (b.2 ≤ a.2))
    have hbasend :
        ((firstDedup [] (view.filterMap (fun r => r.author))).map
          (fun v => (v, (view.filterMap (fun r => r.author)).count v))).Nodup := by
      refine List.Nodup.map ?_ (nodup_firstDedup _ _)
      intro u v he
      exact congrArg Prod.fst he
    have hsortnd : (value_counts (view.filterMap (fun r => r.author))).Nodup :=
      hperm.nodup_iff.mpr hbasend
    have hne : a ≠ b := by
      intro he
      subst he
      exact List.nodup_iff_sublist.mp hsortnd a habs
    have hmema : a ∈ (firstDedup [] (view.filterMap (fun r => r.author))).map
        (fun v => (v, (view.filterMap (fun r => r.author)).count v)) :=
      hperm.subset (habs.subset (by simp))
    have hmemb : b ∈ (firstDedup [] (view.filterMap (fun r => r.author))).map
        (fun v => (v, (view.filterMap (fun r => r.author)).count v)) :=
      hperm.subset (habs.subset (by simp))
    rcases pair_sublist_of_mem hmema hmemb hne with hbase | hbase
    · obtain ⟨l', hl', he⟩ := List.sublist_map_iff.mp hbase
      match l', he with
      | [x, y], he =>
        simp only [List.map_cons, List.map_nil, List.cons.injEq, and_true] at he
        obtain ⟨hex, hey⟩ := he
        have hx1 : a.1 = x := by rw [hex]
        have hy1 : b.1 = y := by rw [hey]
        rw [hx1, hy1]
        exact firstDedup_pair_indexOf _ [] hl'
    · exfalso
      have hpair : [b, a].Pairwise
          (fun u v : String × Nat => decide (v.2 ≤ u.2) = true) := by
        simp [hcnt]
      have hsl := List.sublist_mergeSort cmp_trans cmp_total
        (by
          refine hpair.imp ?_
          intro u v h
          exact h) hbase
      exact pair_sublist_asymm hsortnd habs hsl
def sampleCols : List String :=
  ["Type", "Main Genre", "Author", "Rating", "No. of People rated", "Price"]

/-- A concrete row used in witnesses and counterexamples. -/
def sampleRow : Row :=
  ⟨some "Fiction", some "Arts", some "A", some 4, 100, 10, false⟩

/-- A concrete one-row dataset. -/
def sampleDataset : Dataset :=
  ⟨sampleCols, [sampleRow]⟩

/-- Parameters with an empty genre selection: they filter `sampleDataset`
down to the empty view. -/
def emptyGenreParams : Params :=
  ⟨["Fiction"], [], 0, 5, false⟩

/-- Counterexample to **C2** as stated: with an empty genre selection the
filtered view of `sampleDataset` is empty, yet the Price summary
statistics of the overview tab are not the "no data" signal (the code has
no empty-data guard around `filtered_df["Price"].describe()`), and
neither is the correlation tab's output (it shows a heatmap of `NaN`
entries).  So not every aggregation reports "no data" on an empty
filtered view. -/
theorem stats_shown_on_empty_view_cex :
    (filtered_df sampleDataset emptyGenreParams).rows = [] ∧
    overview_price_stats sampleDataset emptyGenreParams ≠ .noData ∧
    corr_tab sampleDataset emptyGenreParams ≠ .noData := by
  decide

/-- **C2 (amended).** On an empty filtered view the three guarded
sections (average price by type, top authors, average rating by genre)
report the "no data" signal, while the Price summary statistics are still
shown (count `0`, all other statistics `NaN`) and the correlation tab
never reports "no data"; no computation fails (all the display functions
are total). -/
theorem empty_view_display_signals (d : Dataset) (p : Params)
    (h : (filtered_df d p).rows = []) :
    avg_price_type d p = .noData ∧
    author_counts d p = .noData ∧
    avg_rating_genre d p = .noData ∧
    overview_price_stats d p = .shown (describeQ []) ∧
    corr_tab d p ≠ .noData := by
  refine ⟨?_, ?_, ?_, ?_, ?_⟩
  · simp [avg_price_type, h]
  · simp [author_counts, h]
  · simp [avg_rating_genre, h]
  · simp [overview_price_stats, h]
  · simp only [corr_tab]
    split <;> simp

/-- Witness for the amended C2, on the concrete empty filtered view of
`sampleDataset`. -/
theorem empty_view_display_signals_witness :
    avg_price_type sampleDataset emptyGenreParams = .noData ∧
    author_counts sampleDataset emptyGenreParams = .noData ∧
    avg_rating_genre sampleDataset emptyGenreParams = .noData ∧
    overview_price_stats sampleDataset emptyGenreParams = .shown (describeQ []) ∧
    corr_tab sampleDataset emptyGenreParams ≠ .noData :=
  empty_view_display_signals sampleDataset emptyGenreParams (by decide)

/-- **C5.** The correlation tab computes only over the requested numeric
columns that exist in the filtered view; with fewer than two such columns
it signals "insufficient columns" and computes no matrix, and that signal
is triggered by the column count alone — it is a different signal from,
and independent of, the empty-data condition (the tab never reports
"no data" at all). -/
theorem corr_tab_signals (d : Dataset) (p : Params) :
    (corr_tab d p = .insufficientColumns ↔ (existing_numeric d.cols).length < 2) ∧
    (2 ≤ (existing_numeric d.cols).length →
      corr_tab d p =
        .heatmap (existing_numeric d.cols)
          (corrMatrix (filtered_df d p).rows (existing_numeric d.cols))) ∧
    (∀ c ∈ existing_numeric d.cols, c ∈ numeric_cols ∧ c ∈ d.cols) ∧
    corr_tab d p ≠ .noData := by
  have hc : (filtered_df d p).cols = d.cols := filtered_df_cols d p
  simp only [corr_tab]
  rw [hc]
  refine ⟨?_, ?_, ?_, ?_⟩
  · constructor
    · intro h
      by_contra hlt
      rw [if_pos (by omega)] at h
      exact CorrDisplay.noConfusion h
    · intro hlt
      rw [if_neg (by omega)]
  · intro h2
    rw [if_pos h2]
  · intro c hcmem
    rw [existing_numeric, List.mem_filter] at hcmem
    exact ⟨hcmem.1, by simpa using hcmem.2⟩
  · split <;> simp

/-- Witness for C5: on the one-row dataset all three numeric columns
exist, so the tab shows the heatmap over them. -/
theorem corr_tab_signals_witness :
    corr_tab sampleDataset emptyGenreParams =
      .heatmap (existing_numeric sampleDataset.cols)
        (corrMatrix (filtered_df sampleDataset emptyGenreParams).rows
          (existing_numeric sampleDataset.cols)) :=
  (corr_tab_signals sampleDataset emptyGenreParams).2.1 (by decide)

/-- **C7.** Filtering is idempotent: running the pipeline on its own
output with the same parameters returns that output unchanged. -/
theorem filter_pipeline_idempotent (d : Dataset) (p : Params) :
    filtered_df (filtered_df d p) p = filtered_df d p := by
  have hc := filtered_df_cols d p
  have hr := filtered_df_rows d p
  have hr2 := filtered_df_rows (filtered_df d p) p
  cases hdf : filtered_df d p with
  | mk cols rows =>
    cases hdf2 : filtered_df ⟨cols, rows⟩ p with
    | mk cols2 rows2 =>
      have h1 : cols2 = cols := by
        have := filtered_df_cols ⟨cols, rows⟩ p
        rw [hdf2] at this
        exact this
      have h2 : rows2 = rows := by
        have := filtered_df_rows ⟨cols, rows⟩ p
        rw [hdf2] at this
        rw [hdf] at hc hr
        simp only at this hc hr ⊢
        subst hc
        rw [this, hr, List.filter_filter]
        apply List.filter_congr
        intro r _
        cases specPred d.cols p r <;> simp
      rw [h1, h2]

/-- **C8.** An empty type selection or an empty genre selection makes the
filtered view empty, whatever the other parameters are. -/
theorem empty_selection_gives_empty_view (d : Dataset) (p : Params)
    (h : p.selected_types = [] ∨ p.selected_genres = []) :
    (filtered_df d p).rows = [] := by
  rw [filtered_df_rows, List.filter_eq_nil_iff]
  intro r _
  rcases h with h | h <;>
    simp [specPred, h, isinStr] <;>
    cases hr : r.type <;>
    cases hg : r.mainGenre <;>
    simp [hr, hg]

/-- Witness for C8: on a one-row dataset, emptying the type selection
empties the filtered view. -/
theorem empty_selection_gives_empty_view_witness :
    (filtered_df
        ⟨["Type", "Main Genre", "Author", "Rating", "No. of People rated", "Price"],
          [⟨some "Fiction", some "Arts", some "A", some 4, 100, 10, false⟩]⟩
        ⟨[], ["Arts"], 0, 5, false⟩).rows = [] :=
  empty_selection_gives_empty_view _ _ (Or.inl rfl)

/-- **C9.** When the `Price_outlier` column is absent the outlier step is
the identity: for every value of `exclude_outliers` the pipeline returns
exactly the rows passing the other predicates (type, genre, rating
bounds), and the computation is total. -/
theorem outlier_step_noop_when_column_absent (d : Dataset) (p : Params)
    (h : d.cols.contains "Price_outlier" = false) :
    filtered_df d p = ⟨d.cols, d.rows.filter (fun r => basePred p r)⟩ := by
  unfold filtered_df
  rw [h, Bool.and_false]
  simp

/-- Witness for C9: on a concrete dataset without the outlier column,
the pipeline output (with `exclude_outliers` set) is the base filter. -/
theorem outlier_step_noop_when_column_absent_witness :
    filtered_df
        ⟨["Type", "Main Genre", "Author", "Rating", "No. of People rated", "Price"],
          [⟨some "Fiction", some "Arts", some "A", some 4, 100, 10, true⟩]⟩
        ⟨["Fiction"], ["Arts"], 0, 5, true⟩ =
      ⟨["Type", "Main Genre", "Author", "Rating", "No. of People rated", "Price"],
        List.filter (fun r => basePred ⟨["Fiction"], ["Arts"], 0, 5, true⟩ r)
          [⟨some "Fiction", some "Arts", some "A", some 4, 100, 10, true⟩]⟩ :=
  outlier_step_noop_when_column_absent _ _ (by decide)

/-- **C10.** No row of the filtered view has a missing `Type`,
`Main Genre` or `Rating`: a missing label is in no selection set and a
missing rating satisfies neither inclusive bound, so such rows are always
dropped even though they may remain in the dataset. -/
theorem filtered_rows_have_no_missing_values (d : Dataset) (p : Params) (r : Row)
    (h : r ∈ (filtered_df d p).rows) :
    r.type ≠ none ∧ r.mainGenre ≠ none ∧ r.rating ≠ none := by
  rw [filtered_df_rows, List.mem_filter] at h
  obtain ⟨-, hp⟩ := h
  simp only [specPred, Bool.and_eq_true] at hp
  have ht := hp.1.1.1.1
  have hg := hp.1.1.1.2
  have hlo := hp.1.1.2
  refine ⟨?_, ?_, ?_⟩
  · intro he
    rw [he] at ht
    simp [isinStr] at ht
  · intro he
    rw [he] at hg
    simp [isinStr] at hg
  · intro he
    rw [he] at hlo
    simp [ratingGe] at hlo

/-- Witness for C10: a concrete row surviving a concrete filter has all
three fields present. -/
theorem filtered_rows_have_no_missing_values_witness :
    (Row.mk (some "Fiction") (some "Arts") (some "A") (some 4) 100 10 false).type ≠ none ∧
    (Row.mk (some "Fiction") (some "Arts") (some "A") (some 4) 100 10 false).mainGenre ≠ none ∧
    (Row.mk (some "Fiction") (some "Arts") (some "A") (some 4) 100 10 false).rating ≠ none :=
  filtered_rows_have_no_missing_values
    ⟨["Type", "Main Genre", "Author", "Rating", "No. of People rated", "Price"],
      [⟨some "Fiction", some "Arts", some "A", some 4, 100, 10, false⟩]⟩
    ⟨["Fiction"], ["Arts"], 0, 5, false⟩ _ (by decide)

/-! ### Correlation-matrix facts (claim C6) -/

/-- The present (non-`NaN`) values of a column. -/
def presentVals (xs : List (Option ℚ)) : List ℚ :=
  xs.filterMap id

/-- The centered sum of squares of a list about its mean. -/
def css (zs : List ℚ) : ℚ :=
  (zs.map (fun z => (z - qmean zs) ^ 2)).sum

theorem css_nonneg (zs : List ℚ) : 0 ≤ css zs := by
  apply List.sum_nonneg
  intro x hx
  obtain ⟨z, -, rfl⟩ := List.mem_map.mp hx
  positivity

theorem sum_nonneg_all_zero :
    ∀ (l : List ℚ), (∀ x ∈ l, 0 ≤ x) → l.sum = 0 → ∀ x ∈ l, x = 0 := by
  intro l
  induction l with
  | nil => simp
  | cons a t ih =>
    intro hpos hsum x hx
    have hta : 0 ≤ a := hpos a (by simp)
    have hts : 0 ≤ t.sum := List.sum_nonneg (fun y hy => hpos y (by simp [hy]))
    rw [List.sum_cons] at hsum
    have ha0 : a = 0 := by linarith
    have hs0 : t.sum = 0 := by linarith
    rcases List.mem_cons.mp hx with h | h
    · rw [h, ha0]
    · exact ih (fun y hy => hpos y (by simp [hy])) hs0 x h

theorem css_eq_zero_iff (zs : List ℚ) :
    css zs = 0 ↔ ∀ x ∈ zs, ∀ y ∈ zs, x = y := by
  constructor
  · intro h x hx y hy
    have hall := sum_nonneg_all_zero _
      (fun u hu => by
        obtain ⟨z, -, rfl⟩ := List.mem_map.mp hu
        positivity)
      h
    have hx0 := hall _ (List.mem_map_of_mem _ hx)
    have hy0 := hall _ (List.mem_map_of_mem _ hy)
    have hx1 : x = qmean zs := by
      have := (pow_eq_zero_iff (two_ne_zero)).mp hx0
      exact sub_eq_zero.mp this
    have hy1 : y = qmean zs := by
      have := (pow_eq_zero_iff (two_ne_zero)).mp hy0
      exact sub_eq_zero.mp this
    rw [hx1, hy1]
  · intro h
    cases zs with
    | nil => simp [css]
    | cons a t =>
      have hm : qmean (a :: t) = a := by
        have hsum : (a :: t).sum = (a :: t).length • a :=
          List.sum_eq_card_nsmul _ _ (fun x hx => h x hx a (by simp))
        unfold qmean
        rw [hsum, nsmul_eq_mul]
        have hlen : ((a :: t).length : ℚ) ≠ 0 := by
          simp only [List.length_cons, Nat.cast_add, Nat.cast_one]
          positivity
        exact mul_div_cancel_left₀ a hlen
      unfold css
      apply List.sum_eq_zero
      intro u hu
      obtain ⟨z, hz, rfl⟩ := List.mem_map.mp hu
      rw [hm, h z hz a (by simp), sub_self]
      simp

theorem pairedVals_self (xs : List (Option ℚ)) :
    pairedVals xs xs = (presentVals xs).map (fun z => (z, z)) := by
  induction xs with
  | nil => rfl
  | cons a t ih =>
    cases a with
    | none => simpa [pairedVals, presentVals] using ih
    | some x => simpa [pairedVals, presentVals] using ih

theorem pairedVals_swap (xs ys : List (Option ℚ)) :
    pairedVals ys xs = (pairedVals xs ys).map Prod.swap := by
  unfold pairedVals
  rw [← List.zip_swap, List.filterMap_map, List.map_filterMap]
  congr 1
  funext q
  rcases q with ⟨a, b⟩
  cases a <;> cases b <;> rfl

theorem map_swap_fst (ps : List (ℚ × ℚ)) :
    (ps.map Prod.swap).map Prod.fst = ps.map Prod.snd := by
  rw [List.map_map]; rfl

theorem map_swap_snd (ps : List (ℚ × ℚ)) :
    (ps.map Prod.swap).map Prod.snd = ps.map Prod.fst := by
  rw [List.map_map]; rfl

theorem sxxOf_swap (ps : List (ℚ × ℚ)) : sxxOf (ps.map Prod.swap) = syyOf ps := by
  unfold sxxOf syyOf
  rw [map_swap_fst, List.map_map]
  rfl

theorem syyOf_swap (ps : List (ℚ × ℚ)) : syyOf (ps.map Prod.swap) = sxxOf ps := by
  unfold sxxOf syyOf
  rw [map_swap_snd, List.map_map]
  rfl

theorem sxyOf_swap (ps : List (ℚ × ℚ)) : sxyOf (ps.map Prod.swap) = sxyOf ps := by
  unfold sxyOf
  rw [map_swap_fst, map_swap_snd, List.map_map]
  have hc : ∀ q : ℚ × ℚ,
      ((Prod.swap q).1 - qmean (ps.map Prod.snd)) *
        ((Prod.swap q).2 - qmean (ps.map Prod.fst)) =
      (q.1 - qmean (ps.map Prod.fst)) * (q.2 - qmean (ps.map Prod.snd)) := by
    intro q
    simp [Prod.swap]
    ring
  simp only [Function.comp_def, hc]

theorem corrEntry_symm (xs ys : List (Option ℚ)) :
    optEntryEquiv (corrEntry xs ys) (corrEntry ys xs) := by
  unfold corrEntry
  rw [pairedVals_swap xs ys, sxxOf_swap, syyOf_swap, sxyOf_swap]
  by_cases h : sxxOf (pairedVals xs ys) = 0 ∨ syyOf (pairedVals xs ys) = 0
  · rw [if_pos h, if_pos (Or.symm h)]
    exact trivial
  · rw [if_neg h, if_neg (fun hc => h (Or.symm hc))]
    exact ⟨Iff.rfl, by ring⟩

theorem corrEntry_self (xs : List (Option ℚ)) :
    corrEntry xs xs =
      if css (presentVals xs) = 0 then none
      else some ⟨css (presentVals xs), css (presentVals xs), css (presentVals xs)⟩ := by
  have h1 : ((presentVals xs).map (fun z => ((z, z) : ℚ × ℚ))).map Prod.fst =
      presentVals xs := by
    rw [List.map_map]
    exact List.map_id _
  have h2 : ((presentVals xs).map (fun z => ((z, z) : ℚ × ℚ))).map Prod.snd =
      presentVals xs := by
    rw [List.map_map]
    exact List.map_id _
  have hsxx : sxxOf ((presentVals xs).map (fun z => (z, z))) = css (presentVals xs) := by
    unfold sxxOf css
    rw [h1, List.map_map]
    rfl
  have hsyy : syyOf ((presentVals xs).map (fun z => (z, z))) = css (presentVals xs) := by
    unfold syyOf css
    rw [h2, List.map_map]
    rfl
  have hsxy : sxyOf ((presentVals xs).map (fun z => (z, z))) = css (presentVals xs) := by
    unfold sxyOf css
    rw [h1, h2, List.map_map]
    have hc : ∀ z : ℚ,
        (((z, z) : ℚ × ℚ).1 - qmean (presentVals xs)) *
          (((z, z) : ℚ × ℚ).2 - qmean (presentVals xs)) =
        (z - qmean (presentVals xs)) ^ 2 := by
      intro z
      ring
    simp only [Function.comp_def, hc]
  unfold corrEntry
  rw [pairedVals_self, hsxx, hsyy, hsxy]
  simp only [or_self]

theorem corrEntry_diag_one (xs : List (Option ℚ)) (h : css (presentVals xs) ≠ 0) :
    ∃ e, corrEntry xs xs = some e ∧ e.IsOne := by
  rw [corrEntry_self, if_neg h]
  refine ⟨_, rfl, css_nonneg _, ?_⟩
  ring

/-- Parameters that keep `sampleRow`. -/
def keepAllParams : Params :=
  ⟨["Fiction"], ["Arts"], 0, 5, false⟩

/-- A second concrete row with a different price. -/
def sampleRow2 : Row :=
  ⟨some "Fiction", some "Arts", some "B", some 5, 200, 20, false⟩

/-- A two-row view whose prices differ. -/
def twoPriceRows : List Row :=
  [sampleRow, sampleRow2]

/-- Counterexample to **C6** as stated: the one-row dataset passes the
filter (non-empty view) and all three requested numeric columns exist,
yet the `(Price, Price)` diagonal entry of the correlation matrix is
`NaN` (`none`), not `1.0`: with a single observation every centered sum
of squares is zero and pandas `corr` divides zero by zero.  So the
diagonal is not `1.0` for *every* non-empty input. -/
theorem corr_diag_nan_cex :
    (filtered_df sampleDataset keepAllParams).rows = [sampleRow] ∧
    2 ≤ (existing_numeric (filtered_df sampleDataset keepAllParams).cols).length ∧
    corrEntry (colVals (filtered_df sampleDataset keepAllParams).rows "Price")
      (colVals (filtered_df sampleDataset keepAllParams).rows "Price") = none ∧
    ¬ ∃ e,
      corrEntry (colVals (filtered_df sampleDataset keepAllParams).rows "Price")
        (colVals (filtered_df sampleDataset keepAllParams).rows "Price") = some e ∧
      e.IsOne := by
  have h1 : (filtered_df sampleDataset keepAllParams).rows = [sampleRow] := by decide
  have hcss : css (presentVals (colVals [sampleRow] "Price")) = 0 :=
    (css_eq_zero_iff _).mpr (by decide)
  have h3 : corrEntry (colVals [sampleRow] "Price") (colVals [sampleRow] "Price") =
      none := by
    rw [corrEntry_self, if_pos hcss]
  refine ⟨h1, by decide, ?_, ?_⟩
  · rw [h1]
    exact h3
  · rw [h1]
    rintro ⟨e, he, -⟩
    rw [h3] at he
    exact Option.noConfusion he

/-- **C6 (amended).** For every view and every requested column list, the
correlation matrix has one row per column in input order, each row has
one entry per column, the entry at `(i, j)` is the Pearson entry of the
`i`-th and `j`-th columns; the matrix is symmetric (entries `(i, j)` and
`(j, i)` are either both `NaN` or represent the same value); a diagonal
entry equals `1.0` whenever its column has two distinct present values
over the view (nonzero variance), and is `NaN` when all its present
values are equal — in particular on single-row or empty views. -/
theorem corr_matrix_symm_diag (rows : List Row) (cs : List String) :
    ((corrMatrix rows cs).length = cs.length ∧
      ∀ mrow ∈ corrMatrix rows cs, mrow.length = cs.length) ∧
    (∀ i j, i < cs.length → j < cs.length →
      ((corrMatrix rows cs).getD i []).getD j none =
        corrEntry (colVals rows (cs.getD i "")) (colVals rows (cs.getD j ""))) ∧
    (∀ c1 c2, optEntryEquiv (corrEntry (colVals rows c1) (colVals rows c2))
      (corrEntry (colVals rows c2) (colVals rows c1))) ∧
    (∀ c, (∃ x ∈ presentVals (colVals rows c),
        ∃ y ∈ presentVals (colVals rows c), x ≠ y) →
      ∃ e, corrEntry (colVals rows c) (colVals rows c) = some e ∧ e.IsOne) ∧
    (∀ c, (∀ x ∈ presentVals (colVals rows c),
        ∀ y ∈ presentVals (colVals rows c), x = y) →
      corrEntry (colVals rows c) (colVals rows c) = none) := by
  refine ⟨⟨?_, ?_⟩, ?_, ?_, ?_, ?_⟩
  · simp [corrMatrix]
  · intro mrow hmrow
    unfold corrMatrix at hmrow
    obtain ⟨c1, -, rfl⟩ := List.mem_map.mp hmrow
    simp
  · intro i j hi hj
    unfold corrMatrix
    simp only [List.getD_eq_getElem?_getD, List.getElem?_map,
      List.getElem?_eq_getElem hi, List.getElem?_eq_getElem hj,
      Option.map_some', Option.getD_some]
  · intro c1 c2
    exact corrEntry_symm _ _
  · intro c hdist
    apply corrEntry_diag_one
    rw [Ne, css_eq_zero_iff]
    intro hall
    obtain ⟨x, hx, y, hy, hne⟩ := hdist
    exact hne (hall x hx y hy)
  · intro c hconst
    rw [corrEntry_self, if_pos ((css_eq_zero_iff _).mpr hconst)]

/-- Witness for the amended C6: on the two-row view the `Price` column
has the two distinct values `10` and `20`, so its diagonal correlation
entry exists and equals `1.0`. -/
theorem corr_matrix_symm_diag_witness :
    ∃ e, corrEntry (colVals twoPriceRows "Price") (colVals twoPriceRows "Price") =
      some e ∧ e.IsOne :=
  (corr_matrix_symm_diag twoPriceRows numeric_cols).2.2.2.1 "Price" (by decide)

end BooksApp
